/-
Verification of the parallel Sudoku solver (sud.c) against its
natural-language specification.

The board is a total function from (row, column) indices to cell values,
mirroring the C array int puzzle[9][9]; in-place mutation becomes explicit
functional update (setCell).  The recursive search sudokuHelper is embedded
with an explicit fuel argument equal to 81 - nTimes (the remaining depth
budget): the C function checks nTimes == 81 and every recursive call passes
nTimes + 1, so the remaining budget decreases by one per call and the fuel
version agrees with the C control flow at every depth the program reaches.
The shared flag g_finished is read but never written inside the search, so
it is passed as a constant Boolean parameter.
-/
import Mathlib

/-- A Sudoku board: row-major 9x9 grid of C ints, read as a total function. -/
def Board : Type := Nat → Nat → Int

/-- Functional update of one cell, modelling the assignment puzzle[r][c] = v. -/
def setCell (p : Board) (r c : Nat) (v : Int) : Board :=
  fun i j => if i = r ∧ j = c then v else p i j

/-- Lines 85-98 of sud.c: one pass over i = 0..8 checking the target column,
the target row, and the 3x3 block located by integer floor arithmetic; the C
early returns make the loop a conjunction over the nine indices. -/
def isValid (number : Int) (puzzle : Board) (row column : Nat) : Bool :=
  (List.range 9).all (fun i =>
    !(puzzle i column == number) && !(puzzle row i == number) &&
    !(number == puzzle (row / 3 * 3 + i % 3) (column / 3 * 3 + i / 3)))

/-- Lines 125-130 of sud.c: advance the cursor, column fastest, wrapping the
column at 9 to the next row and the row at 9 back to 0. -/
def nextCell (row col : Nat) : Nat × Nat :=
  if col + 1 = 9 then (if row + 1 = 9 then (0, 0) else (row + 1, 0)) else (row, col + 1)

/-- Line 140 of sud.c: the rotating guess update, ++startV wrapping 10 to 1. -/
def nextVal (s : Int) : Int :=
  if s + 1 = 10 then 1 else s + 1

/-- Lines 139-152 of sud.c: the candidate loop of sudokuHelper, with k the
number of loop iterations left (the C loop runs val = 1..9, so it starts at
k = 9) and rec the recursive call at depth nTimes + 1.  A candidate that
passes isValid is written into the cell before recursing; when the loop
exhausts, the cell is reset to 0 and failure is returned (lines 151-152). -/
def loop9 (rec : Board → Nat → Nat → Int → Bool × Board) (row col : Nat) :
    Board → Int → Nat → Bool × Board
  | p, _, 0 => (false, setCell p row col 0)
  | p, s, Nat.succ k =>
    if isValid (nextVal s) p row col then
      if (rec (setCell p row col (nextVal s)) row col (nextVal s)).1 then
        (true, (rec (setCell p row col (nextVal s)) row col (nextVal s)).2)
      else
        loop9 rec row col (rec (setCell p row col (nextVal s)) row col (nextVal s)).2
          (nextVal s) k
    else
      loop9 rec row col p (nextVal s) k

/-- Body of sudokuHelper (lines 112-153) for one depth, parameterised by the
recursive call rec used both by the skip branch (line 135) and by the
candidate loop (line 145). -/
def helperStep (rec : Board → Nat → Nat → Int → Bool × Board) (finished : Bool)
    (p : Board) (row col : Nat) (startV : Int) : Bool × Board :=
  if finished then (true, p)
  else
    if p (nextCell row col).1 (nextCell row col).2 ≠ 0 then
      rec p (nextCell row col).1 (nextCell row col).2 startV
    else
      loop9 rec (nextCell row col).1 (nextCell row col).2 p startV 9

/-- sudokuHelper with fuel = 81 - nTimes: fuel 0 is exactly the terminal
success test BOARDSIZE == nTimes of line 123 (return 1, no mutation). -/
def sudokuHelperFuel (finished : Bool) : Nat → Board → Nat → Nat → Int → Bool × Board
  | 0 => fun p _ _ _ => (true, p)
  | Nat.succ fuel => fun p row col startV =>
      helperStep (sudokuHelperFuel finished fuel) finished p row col startV

/-- Lines 112-153 of sud.c: bool sudokuHelper(puzzle, row, col, startV, nTimes),
returning the Boolean result together with the board after the call. -/
def sudokuHelper (finished : Bool) (p : Board) (row col : Nat) (startV : Int)
    (nTimes : Nat) : Bool × Board :=
  sudokuHelperFuel finished (81 - nTimes) p row col startV

/-- Malformed board: column 1 holds 2..9 in rows 1..8 and row 0 holds a 1 at
column 5, so the empty cell (0,1) admits no legal digit at all. -/
def colBoard : Board :=
  fun i j => if j = 1 ∧ 1 ≤ i ∧ i ≤ 8 then (i : Int) + 1
    else if i = 0 ∧ j = 5 then 1 else 0

/-- The candidate loop of lines 139-148 instrumented to record, for each
legality test it performs, the pair (candidate tested, value the current cell
holds at the moment of the test); it takes the same branches as loop9. -/
def loop9Tests (rec : Board → Nat → Nat → Int → Bool × Board) (row col : Nat) :
    Board → Int → Nat → List (Int × Int)
  | _, _, 0 => []
  | p, s, Nat.succ k =>
    (nextVal s, p row col) ::
      (if isValid (nextVal s) p row col then
        (if (rec (setCell p row col (nextVal s)) row col (nextVal s)).1 then []
         else loop9Tests rec row col
            (rec (setCell p row col (nextVal s)) row col (nextVal s)).2 (nextVal s) k)
      else loop9Tests rec row col p (nextVal s) k)

/-- Lines 115-120 of sud.c, the cooperative cancellation prologue: acquire the
read lock (hold count one), test the flag read under it; on the early-return
branch of line 118 the unlock of line 120 is skipped.  Result: (whether the
branch returns early, number of read locks still held when control leaves the
fragment). -/
def cancelCheck (finished : Bool) : Bool × Nat :=
  if finished then (true, 1) else (false, 1 - 1)

/-- The per-thread parameter record of lines 65-72 of sud.c. -/
structure boardz where
  completed : Bool
  board : Board
  start : Int
  row : Nat
  col : Nat

/-- Lines 285-294 of sud.c: the supervisor builds one record per worker.
g k is the value returned by the k-th call to rand() (iteration i calls
rand() for the row and then for the column, hence indices 2i and 2i+1);
startOf i stands for the value of the float expression
(float)GRIDSIZE/thread_num * i truncated to int, which line 291 stores. -/
def buildTasks (g : Nat → Nat) (startOf : Nat → Int) (puzzle : Board) (n : Nat) :
    List boardz :=
  (List.range n).map (fun i =>
    { completed := false, board := puzzle, start := startOf i,
      row := g (2 * i) % 9, col := g (2 * i + 1) % 9 })

/-- One worker executing the critical section of lines 176-203 under the write
lock: state is (g_finished, list of workers that have run the Result Reporter);
a worker that finds the flag still unset flips it and reports, any other
leaves the state untouched.  Write-lock exclusion serialises these sections,
so a run is a fold over the order in which workers acquire the lock. -/
def postSearch (st : Bool × List Nat) (w : Nat) : Bool × List Nat :=
  if st.1 = false then (true, st.2 ++ [w]) else st

/-- A whole run: every worker whose search returns eventually executes the
critical section; order lists them in write-lock acquisition order. -/
def runWorkers (order : List Nat) : Bool × List Nat :=
  List.foldl postSearch (false, []) order

/-- The space character, written by the "%d " and "%f " formats. -/
def spaceChar : Char := Char.ofNat 32

/-- Decimal digits of a Nat, most significant first, as %d prints them; the
fuel argument (any bound above the digit count) makes the recursion on n / 10
structural. -/
def natToCharsAux : Nat → Nat → List Char
  | 0, _ => []
  | Nat.succ fuel, n =>
    if n < 10 then [Char.ofNat (48 + n)]
    else natToCharsAux fuel (n / 10) ++ [Char.ofNat (48 + n % 10)]

/-- Decimal rendering of a Nat. -/
def natToChars (n : Nat) : List Char := natToCharsAux (n + 1) n

/-- Rendering of a C int by the %d conversion. -/
def intToChars (v : Int) : List Char :=
  if v < 0 then Char.ofNat 45 :: natToChars v.natAbs else natToChars v.toNat

/-- The 81 cells of the board in the row-major order of the nested loops of
lines 226-232 (outer index i over rows, inner index j over columns). -/
def cellsList (p : Board) : List Int :=
  (List.range 81).map (fun t => p (t / 9) (t % 9))

/-- The concatenation "%d " for each value of a list, as the inner snprintf of
line 228 appends into the buffer. -/
def tokensChars : List Int → List Char
  | [] => []
  | v :: vs => intToChars v ++ (spaceChar :: tokensChars vs)

/-- Lines 221-236 of sud.c: buffSudoku writes the 81 cells row-major, each as
"%d ", then the elapsed time as "%f ".  timeTok stands for the %f rendering of
the double timeo (digits and a dot, no space). -/
def buffSudoku (p : Board) (timeTok : List Char) : List Char :=
  tokensChars (cellsList p) ++ (timeTok ++ [spaceChar])

/-- Modelled from the spec: the parsing collaborator is not part of sud.c; the
spec round-trip property reads the space-separated output back.  splitAux
splits a character list at every space, acc holding the current token
reversed. -/
def splitAux : List Char → List Char → List (List Char)
  | [], acc => [acc.reverse]
  | c :: rest, acc =>
    if c = spaceChar then acc.reverse :: splitAux rest []
    else splitAux rest (c :: acc)

/-- Modelled from the spec: split a serialized output at the spaces. -/
def splitSp (s : List Char) : List (List Char) := splitAux s []

/-- Modelled from the spec: read a token as a base-10 integer. -/
def parseTok (t : List Char) : Int :=
  t.foldl (fun a c => a * 10 + ((c.toNat : Int) - 48)) 0

/-- Modelled from the spec: parse the space-separated output back into a grid,
the first 81 tokens in row-major order. -/
def parseGrid (s : List Char) : List Int :=
  ((splitSp s).take 81).map parseTok

lemma setCell_same (p : Board) (r c : Nat) (v : Int) : setCell p r c v r c = v := by
  simp [setCell]

lemma setCell_ne (p : Board) (r c : Nat) (v : Int) (i j : Nat)
    (h : ¬(i = r ∧ j = c)) : setCell p r c v i j = p i j := by
  simp [setCell, h]

lemma setCell_setCell (p : Board) (r c : Nat) (a b : Int) :
    setCell (setCell p r c a) r c b = setCell p r c b := by
  funext i j
  by_cases h : i = r ∧ j = c
  · simp [setCell, h]
  · simp [setCell, h]

lemma setCell_zero_eq (p : Board) (r c : Nat) (h : p r c = 0) :
    setCell p r c 0 = p := by
  funext i j
  by_cases hij : i = r ∧ j = c
  · obtain ⟨hi, hj⟩ := hij
    subst hi; subst hj
    simp [setCell, h]
  · simp [setCell, hij]

lemma nextCell_lt (row col : Nat) (hr : row < 9) (hc : col < 9) :
    (nextCell row col).1 < 9 ∧ (nextCell row col).2 < 9 := by
  unfold nextCell
  by_cases h1 : col + 1 = 9
  · rw [if_pos h1]
    by_cases h2 : row + 1 = 9
    · rw [if_pos h2]
      exact ⟨by decide, by decide⟩
    · rw [if_neg h2]
      refine ⟨?_, ?_⟩
      · show row + 1 < 9
        omega
      · show (0 : Nat) < 9
        decide
  · rw [if_neg h1]
    refine ⟨?_, ?_⟩
    · show row < 9
      exact hr
    · show col + 1 < 9
      omega

lemma nextVal_bounds (s : Int) (h0 : 0 ≤ s) (h9 : s ≤ 9) :
    1 ≤ nextVal s ∧ nextVal s ≤ 9 := by
  unfold nextVal
  split <;> omega

lemma nextVal_ne_self (s : Int) : nextVal s ≠ s := by
  unfold nextVal
  split <;> omega

/-- On the branch where the candidate loop returns failure, the loop leaves
the board it started from with the target cell reset to 0, provided the
recursive call restores the board whenever it fails. -/
lemma loop9_fail (rec : Board → Nat → Nat → Int → Bool × Board)
    (hrec : ∀ q rr cc ss, (rec q rr cc ss).1 = false → (rec q rr cc ss).2 = q)
    (row col : Nat) :
    ∀ k p s, (loop9 rec row col p s k).1 = false →
      (loop9 rec row col p s k).2 = setCell p row col 0 := by
  intro k
  induction k with
  | zero => intro p s _; rfl
  | succ k ih =>
    intro p s h
    by_cases hv : isValid (nextVal s) p row col = true
    · by_cases hr : (rec (setCell p row col (nextVal s)) row col (nextVal s)).1 = true
      · exfalso
        have : (loop9 rec row col p s (k + 1)).1 = true := by
          simp only [loop9, hv, if_true, hr]
        rw [this] at h
        cases h
      · have hfalse : (rec (setCell p row col (nextVal s)) row col (nextVal s)).1 = false := by
          revert hr; cases (rec (setCell p row col (nextVal s)) row col (nextVal s)).1 <;> simp
        have hrest : rec (setCell p row col (nextVal s)) row col (nextVal s) =
            ((rec (setCell p row col (nextVal s)) row col (nextVal s)).1,
             (rec (setCell p row col (nextVal s)) row col (nextVal s)).2) := rfl
        have heq : (loop9 rec row col p s (k + 1)) =
            loop9 rec row col
              (rec (setCell p row col (nextVal s)) row col (nextVal s)).2 (nextVal s) k := by
          simp only [loop9, hv, if_true, hfalse]
          simp
        rw [heq] at h ⊢
        have hq := hrec (setCell p row col (nextVal s)) row col (nextVal s) hfalse
        rw [ih _ _ h, hq, setCell_setCell]
    · have hv' : isValid (nextVal s) p row col = false := by
        revert hv; cases isValid (nextVal s) p row col <;> simp
      have heq : (loop9 rec row col p s (k + 1)) = loop9 rec row col p (nextVal s) k := by
        simp only [loop9, hv']
        simp
      rw [heq] at h ⊢
      exact ih _ _ h

/-- Whenever sudokuHelperFuel reports failure, the board it returns is the
board it was given: every tentative assignment of the call and its
descendants has been erased. -/
lemma helperFuel_fail (finished : Bool) :
    ∀ fuel p row col s, (sudokuHelperFuel finished fuel p row col s).1 = false →
      (sudokuHelperFuel finished fuel p row col s).2 = p := by
  intro fuel
  induction fuel with
  | zero => intro p row col s h; cases h
  | succ fuel ih =>
    intro p row col s h
    by_cases hf : finished = true
    · exfalso
      have : (sudokuHelperFuel finished (fuel + 1) p row col s).1 = true := by
        simp only [sudokuHelperFuel, helperStep, hf, if_true]
      rw [this] at h; cases h
    · have hf' : finished = false := by
        revert hf; cases finished <;> simp
      by_cases hz : p (nextCell row col).1 (nextCell row col).2 ≠ 0
      · have heq : sudokuHelperFuel finished (fuel + 1) p row col s =
            sudokuHelperFuel finished fuel p (nextCell row col).1 (nextCell row col).2 s := by
          simp only [sudokuHelperFuel, helperStep, hf', if_pos hz]
          simp
        rw [heq] at h ⊢
        exact ih _ _ _ _ h
      · have hz' : p (nextCell row col).1 (nextCell row col).2 = 0 := by
          revert hz; simp
        have heq : sudokuHelperFuel finished (fuel + 1) p row col s =
            loop9 (sudokuHelperFuel finished fuel) (nextCell row col).1 (nextCell row col).2
              p s 9 := by
          simp only [sudokuHelperFuel, helperStep, hf', if_neg hz]
          simp
        rw [heq] at h ⊢
        rw [loop9_fail (sudokuHelperFuel finished fuel) (fun q rr cc ss => ih q rr cc ss)
          _ _ 9 p s h]
        exact setCell_zero_eq p _ _ hz'

/-- The candidate loop never changes a cell other than its own target cell,
beyond what the recursive call does; with a recursive call that preserves
non-zero cells, every cell that is non-zero and distinct from the target
keeps its value. -/
lemma loop9_frame (rec : Board → Nat → Nat → Int → Bool × Board)
    (hrec : ∀ q rr cc ss i j, q i j ≠ 0 → (rec q rr cc ss).2 i j = q i j)
    (row col : Nat) :
    ∀ k p s i j, p i j ≠ 0 → ¬(i = row ∧ j = col) →
      (loop9 rec row col p s k).2 i j = p i j := by
  intro k
  induction k with
  | zero => intro p s i j _ hne; exact setCell_ne p row col 0 i j hne
  | succ k ih =>
    intro p s i j hnz hne
    by_cases hv : isValid (nextVal s) p row col = true
    · have hb : setCell p row col (nextVal s) i j = p i j := setCell_ne _ _ _ _ _ _ hne
      have hbnz : setCell p row col (nextVal s) i j ≠ 0 := by rw [hb]; exact hnz
      have hrc := hrec (setCell p row col (nextVal s)) row col (nextVal s) i j hbnz
      by_cases hr : (rec (setCell p row col (nextVal s)) row col (nextVal s)).1 = true
      · have heq : (loop9 rec row col p s (k + 1)).2 =
            (rec (setCell p row col (nextVal s)) row col (nextVal s)).2 := by
          simp only [loop9, hv, if_true, hr]
        rw [heq, hrc, hb]
      · have hfalse : (rec (setCell p row col (nextVal s)) row col (nextVal s)).1 = false := by
          revert hr; cases (rec (setCell p row col (nextVal s)) row col (nextVal s)).1 <;> simp
        have heq : (loop9 rec row col p s (k + 1)) =
            loop9 rec row col
              (rec (setCell p row col (nextVal s)) row col (nextVal s)).2 (nextVal s) k := by
          simp only [loop9, hv, if_true, hfalse]
          simp
        rw [heq]
        have hnz2 : (rec (setCell p row col (nextVal s)) row col (nextVal s)).2 i j ≠ 0 := by
          rw [hrc, hb]; exact hnz
        rw [ih _ _ i j hnz2 hne, hrc, hb]
    · have hv' : isValid (nextVal s) p row col = false := by
        revert hv; cases isValid (nextVal s) p row col <;> simp
      have heq : (loop9 rec row col p s (k + 1)) = loop9 rec row col p (nextVal s) k := by
        simp only [loop9, hv']
        simp
      rw [heq]
      exact ih _ _ i j hnz hne

/-- sudokuHelperFuel writes only cells that were 0 when their call visited
them: every cell holding a non-zero value in the entry board keeps that value
in the returned board. -/
lemma helperFuel_frame (finished : Bool) :
    ∀ fuel p row col s i j, p i j ≠ 0 →
      (sudokuHelperFuel finished fuel p row col s).2 i j = p i j := by
  intro fuel
  induction fuel with
  | zero => intro p row col s i j _; rfl
  | succ fuel ih =>
    intro p row col s i j hnz
    by_cases hf : finished = true
    · simp only [sudokuHelperFuel, helperStep, hf, if_true]
    · have hf' : finished = false := by
        revert hf; cases finished <;> simp
      by_cases hz : p (nextCell row col).1 (nextCell row col).2 ≠ 0
      · have heq : sudokuHelperFuel finished (fuel + 1) p row col s =
            sudokuHelperFuel finished fuel p (nextCell row col).1 (nextCell row col).2 s := by
          simp only [sudokuHelperFuel, helperStep, hf', if_pos hz]
          simp
        rw [heq]
        exact ih _ _ _ _ i j hnz
      · have hz' : p (nextCell row col).1 (nextCell row col).2 = 0 := by
          revert hz; simp
        have heq : sudokuHelperFuel finished (fuel + 1) p row col s =
            loop9 (sudokuHelperFuel finished fuel) (nextCell row col).1 (nextCell row col).2
              p s 9 := by
          simp only [sudokuHelperFuel, helperStep, hf', if_neg hz]
          simp
        rw [heq]
        have hne : ¬(i = (nextCell row col).1 ∧ j = (nextCell row col).2) := by
          rintro ⟨hi, hj⟩
          rw [hi, hj] at hnz
          exact hnz hz'
        exact loop9_frame (sudokuHelperFuel finished fuel)
          (fun q rr cc ss a b hq => ih q rr cc ss a b hq) _ _ 9 p s i j hnz hne

/-- On a board with no empty cell, every visit takes the skip branch of line
133, so the search runs the tail chain to the depth bound and succeeds with
the board untouched. -/
lemma helperFuel_all_filled (fuel : Nat) :
    ∀ p row col s, row < 9 → col < 9 →
      (∀ i, i < 9 → ∀ j, j < 9 → p i j ≠ 0) →
      sudokuHelperFuel false fuel p row col s = (true, p) := by
  induction fuel with
  | zero => intro p row col s _ _ _; rfl
  | succ fuel ih =>
    intro p row col s hr hc hfull
    obtain ⟨hr2, hc2⟩ := nextCell_lt row col hr hc
    have hnz : p (nextCell row col).1 (nextCell row col).2 ≠ 0 :=
      hfull _ hr2 _ hc2
    have heq : sudokuHelperFuel false (fuel + 1) p row col s =
        sudokuHelperFuel false fuel p (nextCell row col).1 (nextCell row col).2 s := by
      simp only [sudokuHelperFuel, helperStep, if_pos hnz]
      simp
    rw [heq]
    exact ih p _ _ s hr2 hc2 hfull

/-- When every digit 1..9 fails the legality test at the loop's target cell,
the loop takes the invalid branch at each of its iterations and returns
failure with the cell reset, whatever the rotation offset in 0..9. -/
lemma loop9_all_invalid (rec : Board → Nat → Nat → Int → Bool × Board) (row col : Nat)
    (p : Board) (hbl : ∀ d : Int, 1 ≤ d → d ≤ 9 → isValid d p row col = false) :
    ∀ k s, 0 ≤ s → s ≤ 9 →
      loop9 rec row col p s k = (false, setCell p row col 0) := by
  intro k
  induction k with
  | zero => intro s _ _; rfl
  | succ k ih =>
    intro s h0 h9
    obtain ⟨hv1, hv9⟩ := nextVal_bounds s h0 h9
    have hinv := hbl (nextVal s) hv1 hv9
    have heq : loop9 rec row col p s (k + 1) = loop9 rec row col p (nextVal s) k := by
      simp only [loop9, hinv]
      simp
    rw [heq]
    exact ih (nextVal s) (by omega) hv9

/-- C1: the Legality Checker isValid returns false if and only if the
candidate digit already occurs somewhere in the target's row, in the target's
column, or in the 3x3 block containing the target, the block being located by
integer floor arithmetic on the row and the column. -/
theorem isValid_false_iff (number : Int) (puzzle : Board) (row column : Nat) :
    isValid number puzzle row column = false ↔
      ((∃ j, j < 9 ∧ puzzle row j = number) ∨
       (∃ i, i < 9 ∧ puzzle i column = number) ∨
       (∃ a, a < 3 ∧ ∃ b, b < 3 ∧
          puzzle (row / 3 * 3 + a) (column / 3 * 3 + b) = number)) := by
  have htrue : isValid number puzzle row column = true ↔
      ∀ i, i < 9 → (puzzle i column ≠ number ∧ puzzle row i ≠ number ∧
        number ≠ puzzle (row / 3 * 3 + i % 3) (column / 3 * 3 + i / 3)) := by
    simp [isValid, List.all_eq_true, List.mem_range, and_assoc]
  constructor
  · intro hfalse
    have hnot : ¬ (isValid number puzzle row column = true) := by
      rw [hfalse]; simp
    rw [htrue] at hnot
    push_neg at hnot
    obtain ⟨i, hi, hcase⟩ := hnot
    by_cases h1 : puzzle i column = number
    · exact Or.inr (Or.inl ⟨i, hi, h1⟩)
    · by_cases h2 : puzzle row i = number
      · exact Or.inl ⟨i, hi, h2⟩
      · have h3 := hcase h1 h2
        exact Or.inr (Or.inr ⟨i % 3, by omega, i / 3, by omega, h3.symm⟩)
  · intro h
    have hnot : ¬ (isValid number puzzle row column = true) := by
      rw [htrue]
      intro hall
      rcases h with ⟨j, hj, hh⟩ | ⟨i, hi, hh⟩ | ⟨a, ha, b, hb, hh⟩
      · exact (hall j hj).2.1 hh
      · exact (hall i hi).1 hh
      · have hblock := (hall (a + 3 * b) (by omega)).2.2
        have e1 : (a + 3 * b) % 3 = a := by omega
        have e2 : (a + 3 * b) / 3 = b := by omega
        rw [e1, e2] at hblock
        exact hblock hh.symm
    revert hnot
    cases hb : isValid number puzzle row column <;> simp

/-- A fully solved board with every cell in 1..9, the standard shifted Latin
square pattern. -/
def fullBoard : Board :=
  fun i j => (((i * 3 + i / 3 + j) % 9 : Nat) : Int) + 1

/-- C2: with the completion latch unset, the search started at depth counter 0
on a board whose 81 cells are all non-zero returns success and leaves every
cell of the board unchanged. -/
theorem helper_solved_noop (p : Board) (row col : Nat) (s : Int)
    (hr : row < 9) (hc : col < 9)
    (hfull : ∀ i, i < 9 → ∀ j, j < 9 → p i j ≠ 0) :
    sudokuHelper false p row col s 0 = (true, p) :=
  helperFuel_all_filled 81 p row col s hr hc hfull

/-- Witness for C2 on a concrete solved board. -/
theorem helper_solved_noop_wit :
    sudokuHelper false fullBoard 4 7 0 0 = (true, fullBoard) :=
  helper_solved_noop fullBoard 4 7 0 (by decide) (by decide) (by decide)

/-- C9: whenever sudokuHelper returns failure, the board at return is the
board at entry, every tentative assignment made by the call or its recursive
descendants having been erased back to 0. -/
theorem helper_fail_restores (finished : Bool) (p : Board) (row col : Nat)
    (s : Int) (nTimes : Nat)
    (h : (sudokuHelper finished p row col s nTimes).1 = false) :
    (sudokuHelper finished p row col s nTimes).2 = p :=
  helperFuel_fail finished (81 - nTimes) p row col s h

/-- Witness for C9 on the malformed board, where the top-level call fails. -/
theorem helper_fail_restores_wit :
    (sudokuHelper false colBoard 0 0 0 0).2 = colBoard :=
  helper_fail_restores false colBoard 0 0 0 0 (by decide)

/-- C10: a cell holding a non-zero value in the entry board is never modified
by the search; only cells that were 0 when visited are ever written. -/
theorem helper_preserves_givens (finished : Bool) (p : Board) (row col : Nat)
    (s : Int) (nTimes : Nat) (i j : Nat) (h : p i j ≠ 0) :
    (sudokuHelper finished p row col s nTimes).2 i j = p i j :=
  helperFuel_frame finished (81 - nTimes) p row col s i j h

/-- Witness for C10: the given 2 at cell (1,1) of the malformed board survives
the whole search. -/
theorem helper_preserves_givens_wit :
    (sudokuHelper false colBoard 0 0 0 0).2 1 1 = colBoard 1 1 :=
  helper_preserves_givens false colBoard 0 0 0 0 1 1 (by decide)

/-- C3 counterexample: running the candidate loop of the search at cell (0,0)
of the malformed board (the cell holds 0 on entry), the legality test for
candidate 5 is performed while the current cell holds 4, the previously
written candidate whose recursive call failed; so it is not the case that
every legality test in the loop sees 0 in the current cell. -/
theorem loop_test_sees_nonzero :
    colBoard 0 0 = 0 ∧
    ((5 : Int), (4 : Int)) ∈ loop9Tests (sudokuHelperFuel false 80) 0 0 colBoard 0 9 ∧
    ¬ (∀ sv ∈ loop9Tests (sudokuHelperFuel false 80) 0 0 colBoard 0 9,
        sv.2 = (0 : Int)) := by
  refine ⟨by decide, by decide, ?_⟩
  intro hall
  have := hall ((5 : Int), (4 : Int)) (by decide)
  cases this

/-- C3 amended: after a candidate s is written into the current cell and its
recursive call fails, the cell still holds s when the loop moves on (the
failed recursive call restores everything else but the caller's cell keeps
the tried candidate); the reset to 0 happens exactly once, when the whole
candidate loop exhausts and returns failure. -/
theorem backtrack_reset_at_exhaustion
    (rec : Board → Nat → Nat → Int → Bool × Board)
    (hrec : ∀ q rr cc ss, (rec q rr cc ss).1 = false → (rec q rr cc ss).2 = q)
    (p : Board) (row col : Nat) (s s0 : Int) (k : Nat)
    (hfail : (rec (setCell p row col s) row col s).1 = false)
    (hloop : (loop9 rec row col p s0 k).1 = false) :
    (rec (setCell p row col s) row col s).2 row col = s ∧
    (loop9 rec row col p s0 k).2 row col = 0 := by
  constructor
  · rw [hrec _ _ _ _ hfail]
    exact setCell_same p row col s
  · rw [loop9_fail rec hrec row col k p s0 hloop]
    exact setCell_same p row col 0

/-- Witness for the amended C3 on the malformed board: candidate 4 is written
at (0,0), its recursive call fails, and the cell still holds 4; the loop as a
whole fails and only then is the cell 0. -/
theorem backtrack_reset_at_exhaustion_wit :
    (sudokuHelperFuel false 80 (setCell colBoard 0 0 4) 0 0 4).2 0 0 = 4 ∧
    (loop9 (sudokuHelperFuel false 80) 0 0 colBoard 0 9).2 0 0 = 0 :=
  backtrack_reset_at_exhaustion (sudokuHelperFuel false 80)
    (fun q rr cc ss h => helperFuel_fail false 80 q rr cc ss h)
    colBoard 0 0 4 0 9 (by decide) (by decide)

/-- C5 counterexample: on the malformed board the top-level call of
sudokuHelper (latch unset, depth counter 0) terminates and returns a failure
outcome, contradicting the claim that no input makes sudokuHelper return
failure to its top-level caller. -/
theorem helper_returns_failure :
    (sudokuHelper false colBoard 0 0 0 0).1 = false := by decide

/-- C5 amended: the search does not hang on a malformed or unsolvable board:
sudokuHelper is total, and whenever the first cell it visits is empty and
admits no legal digit it returns a failure outcome to its caller, with the
board intact (an unsolvable instance surfaces as a failure return, which the
worker then treats like a success). -/
theorem helper_fails_when_blocked (p : Board) (row col : Nat) (s : Int)
    (nTimes : Nat) (hn : nTimes < 81) (h0 : 0 ≤ s) (h9 : s ≤ 9)
    (hz : p (nextCell row col).1 (nextCell row col).2 = 0)
    (hbl : ∀ d : Int, 1 ≤ d → d ≤ 9 →
      isValid d p (nextCell row col).1 (nextCell row col).2 = false) :
    sudokuHelper false p row col s nTimes = (false, p) := by
  obtain ⟨f, hf⟩ : ∃ f, 81 - nTimes = f + 1 := ⟨80 - nTimes, by omega⟩
  unfold sudokuHelper
  rw [hf]
  have hnz : ¬ (p (nextCell row col).1 (nextCell row col).2 ≠ 0) := by
    rw [hz]; simp
  have heq : sudokuHelperFuel false (f + 1) p row col s =
      loop9 (sudokuHelperFuel false f) (nextCell row col).1 (nextCell row col).2
        p s 9 := by
    simp only [sudokuHelperFuel, helperStep, if_neg hnz]
    simp
  rw [heq, loop9_all_invalid (sudokuHelperFuel false f) _ _ p hbl 9 s h0 h9,
    setCell_zero_eq p _ _ hz]

/-- Witness for the amended C5 on the malformed board. -/
theorem helper_fails_when_blocked_wit :
    sudokuHelper false colBoard 0 0 0 0 = (false, colBoard) :=
  helper_fails_when_blocked colBoard 0 0 0 0 (by decide) (by decide) (by decide)
    (by decide)
    (by
      intro d h1 h9
      interval_cases d <;> decide)

/-- C4: evaluating the cancellation prologue at the failing input.  When the
shared solved flag is already true, the early-return branch of line 118 is
taken and the read lock acquired at line 115 is still held on exit (hold
count 1, the unlock of line 120 never runs); the normal branch does release
it.  The claim that every exit path releases the lock is violated by the
code. -/
theorem cancelCheck_leaks_on_early_return :
    cancelCheck true = (true, 1) ∧ cancelCheck false = (false, 0) :=
  ⟨rfl, rfl⟩

/-- C6 counterexample: the cursor is not a single shared draw.  With the
stream of rand() values 0, 1, 2, 3, ... the supervisor's loop gives worker 0
the cursor (0, 1) and worker 1 the cursor (2, 3), so two tasks of the same
run disagree, refuting the claim for every stream of draws. -/
theorem tasks_cursor_not_shared :
    ¬ (∀ (g : Nat → Nat) (startOf : Nat → Int) (p : Board) (n : Nat),
        ∀ t1 ∈ buildTasks g startOf p n, ∀ t2 ∈ buildTasks g startOf p n,
          t1.row = t2.row ∧ t1.col = t2.col) := by
  intro hcl
  have hlist : buildTasks (fun k => k) (fun _ => (0 : Int)) (fun _ _ => (0 : Int)) 2 =
      [{ completed := false, board := fun _ _ => (0 : Int), start := 0, row := 0, col := 1 },
       { completed := false, board := fun _ _ => (0 : Int), start := 0, row := 2, col := 3 }] :=
    rfl
  have h01 := hcl (fun k => k) (fun _ => (0 : Int)) (fun _ _ => (0 : Int)) 2
    { completed := false, board := fun _ _ => (0 : Int), start := 0, row := 0, col := 1 }
    (by rw [hlist]; exact List.mem_cons_self _ _)
    { completed := false, board := fun _ _ => (0 : Int), start := 0, row := 2, col := 3 }
    (by rw [hlist]; exact List.mem_cons_of_mem _ (List.mem_cons_self _ _))
  exact absurd h01.1 (by decide)

/-- C6 amended: every task carries its own copy of the input board and an
unset completion flag, but the starting cursor is drawn afresh for each task:
task i gets row = (value of rand() call 2i) mod 9 and col = (value of rand()
call 2i+1) mod 9, all from the one process-seeded generator; the cursors of
two tasks coincide only when those draws coincide mod 9. -/
theorem buildTasks_entry (g : Nat → Nat) (startOf : Nat → Int) (p : Board)
    (n i : Nat) (h : i < n) :
    (buildTasks g startOf p n).get? i =
      some { completed := false, board := p, start := startOf i,
             row := g (2 * i) % 9, col := g (2 * i + 1) % 9 } := by
  simp [buildTasks]
  exact ⟨i, List.getElem?_range h, rfl, rfl, rfl⟩

/-- Witness for the amended C6: the second of two tasks, on the identity
stream of draws. -/
theorem buildTasks_entry_wit :
    (buildTasks (fun k => k) (fun _ => (0 : Int)) (fun _ _ => (0 : Int)) 2).get? 1 =
      some { completed := false, board := fun _ _ => (0 : Int), start := 0,
             row := 2, col := 3 } :=
  buildTasks_entry (fun k => k) (fun _ => (0 : Int)) (fun _ _ => (0 : Int)) 2 1
    (by decide)

/-- Once the latch is set, later critical sections leave the state fixed. -/
lemma postSearch_stable (rest : List Nat) :
    ∀ st : Bool × List Nat, st.1 = true → List.foldl postSearch st rest = st := by
  induction rest with
  | nil => intro st _; rfl
  | cons w rest ih =>
    intro st h
    have hstep : postSearch st w = st := by
      unfold postSearch
      rw [h]
      simp
    show List.foldl postSearch (postSearch st w) rest = st
    rw [hstep]
    exact ih st h

/-- C8: in any run, under write-lock exclusion the critical sections execute
in some acquisition order; the solved flag transitions false to true exactly
at the first of them, and the Result Reporter runs exactly once system-wide,
in the unique worker that acquired the write lock while the flag was still
false (the head of the acquisition order). -/
theorem latch_one_shot (order : List Nat) (w : Nat) (h : order.head? = some w) :
    (runWorkers order).1 = true ∧ (runWorkers order).2 = [w] := by
  cases order with
  | nil => cases h
  | cons w0 rest =>
    have hw : w0 = w := by
      have : some w0 = some w := h
      injection this
    subst hw
    have h0 : postSearch (false, []) w0 = (true, [w0]) := rfl
    have : runWorkers (w0 :: rest) = List.foldl postSearch (true, [w0]) rest := by
      unfold runWorkers
      show List.foldl postSearch (postSearch (false, []) w0) rest = _
      rw [h0]
    rw [this, postSearch_stable rest (true, [w0]) rfl]
    exact ⟨rfl, rfl⟩

/-- Witness for C8: three workers reach the write lock in the order 2, 0, 1;
the flag ends true and worker 2 is the only reporter. -/
theorem latch_one_shot_wit :
    (runWorkers [2, 0, 1]).1 = true ∧ (runWorkers [2, 0, 1]).2 = [2] :=
  latch_one_shot [2, 0, 1] 2 rfl

lemma intToChars_no_space (v : Int) (h0 : 0 ≤ v) (h9 : v ≤ 9) :
    spaceChar ∉ intToChars v := by
  interval_cases v <;> decide

lemma intToChars_digit_length (v : Int) (h0 : 0 ≤ v) (h9 : v ≤ 9) :
    (intToChars v).length = 1 := by
  interval_cases v <;> decide

lemma parseTok_digit (v : Int) (h0 : 0 ≤ v) (h9 : v ≤ 9) :
    parseTok (intToChars v) = v := by
  interval_cases v <;> decide

lemma cellsList_length (p : Board) : (cellsList p).length = 81 := by
  simp [cellsList]

lemma take_append_self {α : Type} : ∀ (l₁ l₂ : List α), (l₁ ++ l₂).take l₁.length = l₁ := by
  intro l₁ l₂
  induction l₁ with
  | nil => rfl
  | cons a l ih => simp [List.take, ih]

lemma drop_append_self {α : Type} : ∀ (l₁ l₂ : List α), (l₁ ++ l₂).drop l₁.length = l₂ := by
  intro l₁ l₂
  induction l₁ with
  | nil => rfl
  | cons a l ih => simp [List.drop, ih]

lemma splitAux_token (tok : List Char) (h : spaceChar ∉ tok) (rest acc : List Char) :
    splitAux (tok ++ spaceChar :: rest) acc = (acc.reverse ++ tok) :: splitAux rest [] := by
  induction tok generalizing acc with
  | nil =>
    show splitAux (spaceChar :: rest) acc = _
    simp [splitAux]
  | cons c tok ih =>
    have hc : ¬ (c = spaceChar) := by
      intro hcc
      exact h (hcc ▸ List.mem_cons_self _ _)
    show splitAux (c :: (tok ++ spaceChar :: rest)) acc = _
    rw [splitAux, if_neg hc, ih (fun hm => h (List.mem_cons_of_mem _ hm)) (c :: acc)]
    simp

lemma splitSp_tokens (vs : List Int) (hb : ∀ v ∈ vs, 0 ≤ v ∧ v ≤ 9) (rest : List Char) :
    splitSp (tokensChars vs ++ rest) = vs.map intToChars ++ splitSp rest := by
  induction vs with
  | nil => simp [tokensChars]
  | cons v vs ih =>
    have hv := hb v (List.mem_cons_self _ _)
    have hns : spaceChar ∉ intToChars v := intToChars_no_space v hv.1 hv.2
    have harr : tokensChars (v :: vs) ++ rest =
        intToChars v ++ (spaceChar :: (tokensChars vs ++ rest)) := by
      show (intToChars v ++ (spaceChar :: tokensChars vs)) ++ rest = _
      rw [List.append_assoc]
      rfl
    rw [harr]
    show splitAux (intToChars v ++ spaceChar :: (tokensChars vs ++ rest)) [] = _
    rw [splitAux_token (intToChars v) hns (tokensChars vs ++ rest) []]
    have ih2 := ih (fun w hw => hb w (List.mem_cons_of_mem _ hw))
    show ([].reverse ++ intToChars v) :: splitSp (tokensChars vs ++ rest) = _
    rw [ih2]
    simp

lemma map_parse (vs : List Int) (hb : ∀ v ∈ vs, 0 ≤ v ∧ v ≤ 9) :
    (vs.map intToChars).map parseTok = vs := by
  induction vs with
  | nil => rfl
  | cons v vs ih =>
    have hv := hb v (List.mem_cons_self _ _)
    simp only [List.map_cons]
    rw [parseTok_digit v hv.1 hv.2, ih (fun w hw => hb w (List.mem_cons_of_mem _ hw))]

lemma tokensChars_length (vs : List Int) (hb : ∀ v ∈ vs, 0 ≤ v ∧ v ≤ 9) :
    (tokensChars vs).length = 2 * vs.length := by
  induction vs with
  | nil => rfl
  | cons v vs ih =>
    have hv := hb v (List.mem_cons_self _ _)
    show (intToChars v ++ (spaceChar :: tokensChars vs)).length = _
    rw [List.length_append, intToChars_digit_length v hv.1 hv.2]
    simp only [List.length_cons]
    rw [ih (fun w hw => hb w (List.mem_cons_of_mem _ hw))]
    omega

/-- C7: serializing a board of digits 0..9 with buffSudoku yields the 81 cell
values as space-separated decimal tokens in row-major order followed by the
time token; parsing the space-separated output returns exactly the original
81 values; the grid part occupies exactly 162 of the 256 bytes, so the whole
output, time token included, fits the buffer without truncation (snprintf
reserves one byte of the 256 for the terminator) whenever the time token has
at most 92 characters, which covers the %f rendering of every elapsed time
below 10^85 seconds. -/
theorem buffSudoku_roundtrip (p : Board) (timeTok : List Char)
    (hc : ∀ v ∈ cellsList p, 0 ≤ v ∧ v ≤ 9)
    (hsp : spaceChar ∉ timeTok) (hlen : timeTok.length ≤ 92) :
    parseGrid (buffSudoku p timeTok) = cellsList p ∧
    (splitSp (buffSudoku p timeTok)).drop 81 = [timeTok, []] ∧
    (buffSudoku p timeTok).length = 163 + timeTok.length ∧
    (buffSudoku p timeTok).length ≤ 255 := by
  have hsplit : splitSp (buffSudoku p timeTok) =
      (cellsList p).map intToChars ++ [timeTok, []] := by
    unfold buffSudoku
    rw [splitSp_tokens (cellsList p) hc (timeTok ++ [spaceChar])]
    have hTime : splitSp (timeTok ++ [spaceChar]) = [timeTok, []] := by
      show splitAux (timeTok ++ [spaceChar]) [] = [timeTok, []]
      have := splitAux_token timeTok hsp [] []
      simpa using this
    rw [hTime]
  have hmaplen : ((cellsList p).map intToChars).length = 81 := by
    rw [List.length_map, cellsList_length]
  have hlen1 : (buffSudoku p timeTok).length = 163 + timeTok.length := by
    unfold buffSudoku
    rw [List.length_append, List.length_append,
      tokensChars_length (cellsList p) hc, cellsList_length]
    simp only [List.length_cons, List.length_nil]
    omega
  refine ⟨?_, ?_, hlen1, by omega⟩
  · unfold parseGrid
    rw [hsplit, ← hmaplen, take_append_self]
    exact map_parse (cellsList p) hc
  · rw [hsplit, ← hmaplen, drop_append_self]

/-- Witness for C7: the concrete solved board and the time token 0.000123. -/
theorem buffSudoku_roundtrip_wit :
    parseGrid (buffSudoku fullBoard
        [Char.ofNat 48, Char.ofNat 46, Char.ofNat 48, Char.ofNat 48, Char.ofNat 48,
         Char.ofNat 49, Char.ofNat 50, Char.ofNat 51]) = cellsList fullBoard ∧
    (splitSp (buffSudoku fullBoard
        [Char.ofNat 48, Char.ofNat 46, Char.ofNat 48, Char.ofNat 48, Char.ofNat 48,
         Char.ofNat 49, Char.ofNat 50, Char.ofNat 51])).drop 81 =
      [[Char.ofNat 48, Char.ofNat 46, Char.ofNat 48, Char.ofNat 48, Char.ofNat 48,
        Char.ofNat 49, Char.ofNat 50, Char.ofNat 51], []] ∧
    (buffSudoku fullBoard
        [Char.ofNat 48, Char.ofNat 46, Char.ofNat 48, Char.ofNat 48, Char.ofNat 48,
         Char.ofNat 49, Char.ofNat 50, Char.ofNat 51]).length = 163 + 8 ∧
    (buffSudoku fullBoard
        [Char.ofNat 48, Char.ofNat 46, Char.ofNat 48, Char.ofNat 48, Char.ofNat 48,
         Char.ofNat 49, Char.ofNat 50, Char.ofNat 51]).length ≤ 255 :=
  buffSudoku_roundtrip fullBoard
    [Char.ofNat 48, Char.ofNat 46, Char.ofNat 48, Char.ofNat 48, Char.ofNat 48,
     Char.ofNat 49, Char.ofNat 50, Char.ofNat 51]
    (by decide) (by decide) (by decide)
